import Mathlib

/-!
Verification of the tabular normalization and consolidation pipeline of the
Be-Analytic ETL repository (src/main.py, src/connect_postgre.py).

Python strings are embedded as lists of characters (`PyStr`), Python's
string methods as structurally recursive functions on such lists, pandas
cells as an inductive `Cell` type (missing value / text / int / parsed
year-month timestamp), and dataframes as a column-name list plus a list of
rows.  The PostgreSQL session used by `create_table_from_csv` is embedded
as a committed/working pair of table states with transactional
drop/create/insert/commit/rollback steps (PostgreSQL DDL is transactional).
-/

namespace IdaEtl

/-- Python strings, embedded as lists of characters. -/
abbrev PyStr := List Char

/-- Literal helper: a Lean string literal viewed as a `PyStr`. -/
def pys (s : String) : PyStr := s.toList

/-- Python `str.strip()`: drop leading and trailing whitespace. -/
def pyStrip (s : PyStr) : PyStr :=
  ((s.dropWhile Char.isWhitespace).reverse.dropWhile Char.isWhitespace).reverse

/-- Python `c in s` for a single character. -/
def contem (x : Char) (s : PyStr) : Bool := s.any (fun c => c == x)

/-- Python `x in l` for list membership. -/
def pertence {α : Type} [DecidableEq α] (x : α) (l : List α) : Bool :=
  l.any (fun y => y = x)

/-- Python `s.split(sep)` for a one-character separator. -/
def pySplit (sep : Char) : PyStr → List PyStr
  | [] => [[]]
  | c :: cs =>
    if c = sep then [] :: pySplit sep cs
    else
      match pySplit sep cs with
      | [] => [[c]]
      | t :: ts => (c :: t) :: ts

/-- Python `s.rstrip('0')`: drop trailing `'0'` characters. -/
def pyRstrip0 (s : PyStr) : PyStr := (s.reverse.dropWhile (fun c => c == '0')).reverse

/-- Python `s.isdigit()`: non-empty and every character a digit. -/
def pyIsDigitStr (s : PyStr) : Bool := !s.isEmpty && s.all Char.isDigit

/-- Python `s.replace(x, '')`: remove every occurrence of the character. -/
def removeChar (x : Char) (s : PyStr) : PyStr := s.filter (fun c => !(c == x))

/-- Python `s.replace(a, b)` for single characters. -/
def mapChar (a b : Char) (s : PyStr) : PyStr := s.map (fun c => if c = a then b else c)

/-- Python `list.index`-style first-occurrence lookup, `none` when absent. -/
def idxDe {α : Type} [DecidableEq α] (x : α) : List α → Option Nat
  | [] => none
  | c :: cs => if c = x then some 0 else (idxDe x cs).map (· + 1)

/-- Python `sep.join(parts)` for a one-character separator. -/
def joinSep (sep : Char) : List PyStr → PyStr
  | [] => []
  | [s] => s
  | s :: rest => s ++ sep :: joinSep sep rest

/-- Python substring test `needle in hay`. -/
def isSubstrOf (needle : PyStr) : PyStr → Bool
  | [] => needle.isEmpty
  | c :: cs => needle.isPrefixOf (c :: cs) || isSubstrOf needle cs

/-- Python `str.upper()` on one character, covering ASCII and the Latin-1
letters that occur in the header markers of the source. -/
def pyToUpperChar (c : Char) : Char :=
  if 'a' ≤ c ∧ c ≤ 'z' then Char.ofNat (c.toNat - 32)
  else if 0xE0 ≤ c.toNat ∧ c.toNat ≤ 0xFE ∧ c.toNat ≠ 0xF7 then Char.ofNat (c.toNat - 32)
  else c

/-- Python `str.upper()`. -/
def pyUpper (s : PyStr) : PyStr := s.map pyToUpperChar

/-- Numeric value of a digit character. -/
def digitVal (c : Char) : Nat := c.toNat - 48

/-- Regex piece: consume exactly `n` digit characters, return the rest. -/
def matchNDigits : Nat → PyStr → Option PyStr
  | 0, s => some s
  | _ + 1, [] => none
  | n + 1, c :: cs => if c.isDigit then matchNDigits n cs else none

/-- Regex piece: consume the literal character `x`, return the rest. -/
def matchLit (x : Char) : PyStr → Option PyStr
  | [] => none
  | c :: cs => if c = x then some cs else none

/-- `re.match` of the anchored pattern for four digits, a dash, two digits
(the source's period-column pattern): the unconsumed remainder on success. -/
def reAnoMes (s : PyStr) : Option PyStr :=
  ((matchNDigits 4 s).bind (matchLit '-')).bind (matchNDigits 2)

/-- Truth of the period-column prefix pattern used throughout src/main.py. -/
def matchAnoMes (s : PyStr) : Bool := (reAnoMes s).isSome

/-- `re.match` of the full-timestamp pattern (date, space, time of day) used
by normalizar_colunas_data; its first three pieces are those of `reAnoMes`. -/
def reTimestamp (s : PyStr) : Option PyStr :=
  (((((((reAnoMes s).bind (matchLit '-')).bind (matchNDigits 2)).bind
    (matchLit ' ')).bind (matchNDigits 2)).bind (matchLit ':')).bind
    (matchNDigits 2)).bind (matchLit ':') |>.bind (matchNDigits 2)

/-- Truth of the full-timestamp prefix pattern. -/
def matchTimestampCompleto (s : PyStr) : Bool := (reTimestamp s).isSome

/-- Two-digit number from its characters. -/
def num2 (a b : Char) : Nat := 10 * digitVal a + digitVal b

/-- Four-digit number from its characters. -/
def num4 (a b c d : Char) : Nat :=
  1000 * digitVal a + 100 * digitVal b + 10 * digitVal c + digitVal d

/-- Gregorian leap-year test. -/
def bissexto (y : Nat) : Bool := (y % 4 == 0 && !(y % 100 == 0)) || y % 400 == 0

/-- Days in a month. -/
def diasNoMes (y m : Nat) : Nat :=
  if m = 2 then (if bissexto y then 29 else 28)
  else if m = 4 ∨ m = 6 ∨ m = 9 ∨ m = 11 then 30
  else 31

/-- `datetime.strptime(s, '%Y-%m-%d %H:%M:%S')`: the whole string must be a
valid timestamp; returns its year and month. -/
def strptimeTimestamp : PyStr → Option (Nat × Nat)
  | [y1, y2, y3, y4, '-', m1, m2, '-', d1, d2, ' ', h1, h2, ':', n1, n2, ':', s1, s2] =>
    if (([y1, y2, y3, y4, m1, m2, d1, d2, h1, h2, n1, n2, s1, s2] : PyStr).all Char.isDigit) then
      let y := num4 y1 y2 y3 y4
      let m := num2 m1 m2
      let d := num2 d1 d2
      if 1 ≤ m ∧ m ≤ 12 ∧ 1 ≤ d ∧ d ≤ diasNoMes y m ∧
          num2 h1 h2 ≤ 23 ∧ num2 n1 n2 ≤ 59 ∧ num2 s1 s2 ≤ 59 then
        some (y, m)
      else none
    else none
  | _ => none

/-- Left-pad with `'0'` to the given width. -/
def padZeros (w : Nat) (s : PyStr) : PyStr := List.replicate (w - s.length) '0' ++ s

/-- `strftime('%Y-%m')`. -/
def fmtYM (y m : Nat) : PyStr :=
  padZeros 4 (Nat.toDigits 10 y) ++ '-' :: padZeros 2 (Nat.toDigits 10 m)

/-- One column label under normalizar_colunas_data (src/main.py): labels that
already match the year-month prefix pattern are skipped; otherwise labels
matching the full-timestamp pattern are parsed and reformatted to `YYYY-MM`. -/
def normalizar_coluna (s : PyStr) : PyStr :=
  if matchAnoMes s then s
  else if matchTimestampCompleto s then
    match strptimeTimestamp s with
    | some (y, m) => fmtYM y m
    | none => s
  else s

/-- normalizar_colunas_data (src/main.py): rename every column label. -/
def normalizar_colunas_data (cols : List PyStr) : List PyStr :=
  cols.map normalizar_coluna

/-- `pd.to_datetime(s, format='%Y-%m', errors='coerce')` on one label: the
whole string must be four digits, a dash, and a valid two-digit month. -/
def parseAnoMesEstrito : PyStr → Option (Nat × Nat)
  | [a, b, c, d, '-', e, f] =>
    if (([a, b, c, d, e, f] : PyStr).all Char.isDigit) ∧
        1 ≤ num2 e f ∧ num2 e f ≤ 12 then
      some (num4 a b c d, num2 e f)
    else none
  | _ => none

/-- Identifier-column names recognized by the classifier in
transformar_para_formato_longo (src/main.py). -/
def colunasIdentificacao : List PyStr :=
  [pys "GRUPO_ECONOMICO", pys "VARIAVEL", pys "OPERADORA"]

/-- Column classified as an identifier column. -/
def classificaId (c : PyStr) : Bool := pertence c colunasIdentificacao

/-- Column classified as a period (date) column: not an identifier and the
label matches the year-month prefix pattern. -/
def classificaData (c : PyStr) : Bool := !classificaId c && matchAnoMes c

/-- A row of the raw, headerless grid: each cell is text or missing (NaN). -/
abbrev RawRow := List (Option PyStr)

/-- `' '.join(str(val) for val in linha.values if pd.notna(val))`. -/
def linhaParaTexto (r : RawRow) : PyStr := joinSep ' ' (r.filterMap id)

/-- Row test of encontrar_linha_inicio_dados (src/main.py): the concatenated
non-missing cell text, upper-cased, contains the header marker in spaced or
underscored form. -/
def temMarcadorCabecalho (r : RawRow) : Bool :=
  isSubstrOf (pys "GRUPO ECONÔMICO") (pyUpper (linhaParaTexto r)) ||
  isSubstrOf (pys "GRUPO_ECON") (pyUpper (linhaParaTexto r))

/-- Row loop of encontrar_linha_inicio_dados: return the running index at
the first matching row, `0` after exhausting all rows. -/
def encontrarAux : Nat → List RawRow → Nat
  | _, [] => 0
  | i, r :: rs => if temMarcadorCabecalho r then i else encontrarAux (i + 1) rs

/-- encontrar_linha_inicio_dados (src/main.py). -/
def encontrar_linha_inicio_dados (rows : List RawRow) : Nat := encontrarAux 0 rows

/-- Example grid of the spec's header-location scenario: the cell
`GRUPO ECONÔMICO` sits in row 3. -/
def gradeExemplo : List RawRow :=
  [[some (pys "ÍNDICE DE DESEMPENHO NO ATENDIMENTO"), none],
   [none, none],
   [some (pys "SERVIÇO: SMP"), none],
   [some (pys "GRUPO ECONÔMICO"), some (pys "2020-01")],
   [some (pys "ALGAR"), some (pys "85,5")]]

/-- Predicate for a character different from `x` (used with
takeWhile/dropWhile to model scanning up to a separator). -/
def naoEh (x : Char) (c : Char) : Bool := !(c == x)

/-- The per-cell worker of limpar_valores_decimais (src/main.py) on the
whitespace-stripped cell text: if the text contains a period and all its
other characters are digits and it splits at periods into exactly two
parts, strip trailing zeros from the decimal part, dropping the period when
nothing remains; otherwise return the text as is. -/
def limpar_celula_str (s : PyStr) : PyStr :=
  if contem '.' s && pyIsDigitStr (removeChar '.' s) then
    match pySplit '.' s with
    | [a, b] =>
      if removeChar '0' b = [] then a
      else if pyRstrip0 b ≠ [] then a ++ '.' :: pyRstrip0 b
      else a
    | _ => s
  else s

/-- limpar_celula (src/main.py): missing values pass through; text is
stripped and trimmed. -/
def limpar_celula (valor : Option PyStr) : Option PyStr :=
  valor.map (fun v => limpar_celula_str (pyStrip v))

/-- The worker of limpar_valor_final (src/main.py) on cell text: empty text
maps to empty; text containing a period is split at periods and rebuilt
from the first two parts with trailing zeros stripped from the second
(dropping the period when nothing remains); other text passes through. -/
def limpar_valor_final_str (s : PyStr) : PyStr :=
  if s = [] then []
  else if contem '.' s then
    match pySplit '.' s with
    | p :: q :: _ =>
      if pyRstrip0 q ≠ [] then p ++ '.' :: pyRstrip0 q
      else p
    | _ => s
  else s

/-- limpar_valor_final (inner function of criar_dataframe_consolidado,
src/main.py): missing values map to the empty string. -/
def limpar_valor_final (valor : Option PyStr) : PyStr :=
  match valor with
  | none => []
  | some v => limpar_valor_final_str v

/-- Spec-side matcher for `integer.fraction`: the text decomposes as an
integer part, a single period, and a fraction part, with every other
character a digit and at least one digit present.  The scan runs up to the
first period; a nonempty remainder necessarily starts with that period. -/
def casaInteiroFracao (s : PyStr) : Option (PyStr × PyStr) :=
  match s.dropWhile (naoEh '.') with
  | [] => none
  | _ :: b =>
    if !(contem '.' b) && pyIsDigitStr (s.takeWhile (naoEh '.') ++ b) then
      some (s.takeWhile (naoEh '.'), b)
    else none

/-- Decimal-trim normalization as the spec words it: on a match of
`integer.fraction`, strip trailing zeros from the fraction and drop the
period when the fraction empties; otherwise return the text unchanged. -/
def decimalTrimSpec (s : PyStr) : PyStr :=
  match casaInteiroFracao s with
  | some (a, b) => if pyRstrip0 b = [] then a else a ++ '.' :: pyRstrip0 b
  | none => s

/-- The sentinel tokens treated as missing values by converter_para_numero
(src/main.py). -/
def valoresInvalidos : List PyStr :=
  [pys "", pys "nan", pys "NaN", pys "-", pys "--", pys "---", pys "ND", pys "N/D"]

/-- Characters kept by converter_para_numero's stripping step: digits,
comma and period. -/
def caractereNumerico (c : Char) : Bool := c.isDigit || c == ',' || c == '.'

/-- The cleaned token of converter_para_numero: strip whitespace, then keep
only digits, commas and periods. -/
def limpezaNumerica (v : PyStr) : PyStr := (pyStrip v).filter caractereNumerico

/-- converter_para_numero (inner function of transformar_para_formato_longo,
src/main.py): null and sentinel tokens map to the empty string; otherwise
the cleaned token is interpreted with Brazilian thousands/decimal
separators.  With a comma present, periods are removed from the segment
before the first comma and that comma becomes the decimal point (anything
after a second comma is discarded); with no comma and more than two
period-separated parts, all periods are removed; otherwise the cleaned
token passes through. -/
def converter_para_numero (valor : Option PyStr) : PyStr :=
  match valor with
  | none => []
  | some v =>
    if pertence (pyStrip v) valoresInvalidos then []
    else if limpezaNumerica v = [] then []
    else if contem ',' (limpezaNumerica v) then
      if contem '.' (limpezaNumerica v) then
        match pySplit ',' (limpezaNumerica v) with
        | [] => []
        | [p] => removeChar '.' p
        | p :: q :: _ => removeChar '.' p ++ '.' :: q
      else mapChar ',' '.' (limpezaNumerica v)
    else if contem '.' (limpezaNumerica v) then
      if (pySplit '.' (limpezaNumerica v)).length > 2 then
        (pySplit '.' (limpezaNumerica v)).flatten
      else limpezaNumerica v
    else limpezaNumerica v

/-- The C4 claim's transformation, read literally: remove every period to
the left of the LAST comma and replace that comma — the decimal separator —
by a period, leaving the other characters in place. -/
def claim4Transformacao (c : PyStr) : PyStr :=
  removeChar '.' (c.take (c.length - (c.reverse.takeWhile (naoEh ',')).length - 1)) ++
    '.' :: (c.reverse.takeWhile (naoEh ',')).reverse

/-- Amended C4 transformation (what the source does): periods before the
FIRST comma are removed, the first comma becomes the decimal point, the
segment between the first and second commas is kept verbatim, and
everything from the second comma on is discarded. -/
def transformacaoVirgulaPonto (c : PyStr) : PyStr :=
  removeChar '.' (c.takeWhile (naoEh ',')) ++
    '.' :: ((c.dropWhile (naoEh ',')).tail.takeWhile (naoEh ','))

/-- A dataframe cell: missing value (NaN/NaT/None), text, a Python int, or
a parsed year-month timestamp. -/
inductive Cell
  | null
  | str (s : PyStr)
  | int (n : Nat)
  | ym (y m : Nat)
deriving DecidableEq

/-- A pandas DataFrame: ordered column labels plus rows of cells. -/
structure DF where
  cols : List PyStr
  rows : List (List Cell)
deriving DecidableEq

/-- Cell lookup by column label (first occurrence), as pandas does for a
frame with unique labels; absent labels and short rows read as null. -/
def celulaEm (cols : List PyStr) (r : List Cell) (c : PyStr) : Cell :=
  match idxDe c cols with
  | none => Cell.null
  | some j => (r.get? j).getD Cell.null

/-- In-place update of position `j` of a row (pandas column assignment for
a frame with unique labels, by the column's position). -/
def atualizaIdx {α : Type} (j : Nat) (f : α → α) : List α → List α
  | [] => []
  | c :: cs =>
    match j with
    | 0 => f c :: cs
    | j + 1 => c :: atualizaIdx j f cs

/-- Python `str()` of a cell as fed to the value-conversion helpers: text
unchanged, ints in decimal, timestamps in pandas' month-start repr, NaN as
the literal `nan`. -/
def strDaCelula : Cell → PyStr
  | Cell.null => pys "nan"
  | Cell.str s => s
  | Cell.int n => Nat.toDigits 10 n
  | Cell.ym y m => fmtYM y m ++ pys "-01 00:00:00"

/-- `pd.to_datetime(x, format='%Y-%m', errors='coerce')` on one melted
label cell: strings parse strictly as `YYYY-MM`; anything unparseable
coerces to NaT (null). -/
def paraDatetimeMes : Cell → Cell
  | Cell.str s =>
    match parseAnoMesEstrito s with
    | some (y, m) => Cell.ym y m
    | none => Cell.null
  | Cell.ym y m => Cell.ym y m
  | _ => Cell.null

/-- converter_para_numero applied to a cell: pd.isna first, then `str()`. -/
def converterCelula : Cell → Cell
  | Cell.null => Cell.str []
  | c => Cell.str (converter_para_numero (some (strDaCelula c)))

/-- The classified identifier columns of a frame, in column order. -/
def colunasId (cols : List PyStr) : List PyStr := cols.filter classificaId

/-- The classified period columns of a frame, in column order. -/
def colunasData (cols : List PyStr) : List PyStr := cols.filter classificaData

/-- transformar_para_formato_longo (src/main.py): classify the columns;
with no identifier or no period columns, tag the frame with the service
label and pass it through wide (the fallback).  Otherwise pd.melt stacks
one block per period column — one output row per (input row, period
column) pair — with columns ids ++ [REFERENCIA_MES, VALOR]; then the
period labels are parsed to timestamps, the SERVICO column is appended,
and the VALOR column is normalized by converter_para_numero. -/
def transformar_para_formato_longo (df : DF) (servico : PyStr) : DF :=
  if colunasId df.cols = [] ∨ colunasData df.cols = [] then
    ⟨df.cols ++ [pys "SERVICO"], df.rows.map (fun r => r ++ [Cell.str servico])⟩
  else
    ⟨colunasId df.cols ++ [pys "REFERENCIA_MES", pys "VALOR", pys "SERVICO"],
     ((((colunasData df.cols).map (fun d => df.rows.map (fun r =>
          (colunasId df.cols).map (celulaEm df.cols r) ++
            [Cell.str d, celulaEm df.cols r d]))).flatten.map
        (atualizaIdx (colunasId df.cols).length paraDatetimeMes)).map
          (fun r => r ++ [Cell.str servico])).map
        (atualizaIdx ((colunasId df.cols).length + 1) converterCelula)⟩

/-- Example frame for the reshaper: one identifier column, two period
columns, two rows. -/
def dfExemploLongo : DF :=
  ⟨[pys "GRUPO_ECONOMICO", pys "2020-01", pys "2020-02"],
   [[Cell.str (pys "ALGAR"), Cell.str (pys "85,5"), Cell.str (pys "90")],
    [Cell.str (pys "OI"), Cell.str (pys "70,1"), Cell.str (pys "75")]]⟩

/-- The column renaming of criar_dataframe_consolidado step 7
(src/main.py). -/
def renomearFinal (c : PyStr) : PyStr :=
  if c = pys "GRUPO_ECONOMICO" then pys "grupo_economico"
  else if c = pys "VARIAVEL" then pys "servico"
  else if c = pys "REFERENCIA_MES" then pys "mes_referencia"
  else if c = pys "VALOR" then pys "valor"
  else if c = pys "SERVICO" then pys "tipo_servico"
  else c

/-- The preferred column order of criar_dataframe_consolidado step 8. -/
def colunasDesejadas : List PyStr :=
  [pys "id", pys "grupo_economico", pys "servico", pys "mes_referencia",
   pys "valor", pys "tipo_servico"]

/-- pd.DataFrame.drop_duplicates: keep the first occurrence of each exact
row, preserving order. -/
def removeDuplicatasAux (vistas : List (List Cell)) :
    List (List Cell) → List (List Cell)
  | [] => []
  | r :: rs =>
    if r ∈ vistas then removeDuplicatasAux vistas rs
    else r :: removeDuplicatasAux (r :: vistas) rs

/-- drop_duplicates over the concatenated observation rows. -/
def drop_duplicates (rows : List (List Cell)) : List (List Cell) :=
  removeDuplicatasAux [] rows

/-- limpar_valor_final applied to one VALOR cell: pd.isna first, then
`str()`. -/
def limparValorCelula : Cell → Cell
  | Cell.null => Cell.str []
  | c => Cell.str (limpar_valor_final (some (strDaCelula c)))

/-- Step 6 of the consolidator: normalize the VALOR column when present
(selected by its first label position). -/
def aplicaLimparValor (cols : List PyStr) (rows : List (List Cell)) :
    List (List Cell) :=
  match idxDe (pys "VALOR") cols with
  | none => rows
  | some j => rows.map (atualizaIdx j limparValorCelula)

/-- Step 8a: insert the dense 1-based sequential id, positionally. -/
def comIds (k : Nat) : List (List Cell) → List (List Cell)
  | [] => []
  | r :: rs => (Cell.int k :: r) :: comIds (k + 1) rs

/-- Step 8b: reorder to the preferred prefix (those preferred names that
exist) followed by the remaining columns in their existing order, selecting
each output column from the row by label. -/
def reordenaColunas (cols : List PyStr) (rows : List (List Cell)) : DF :=
  ⟨colunasDesejadas.filter (fun c => pertence c cols) ++
     cols.filter (fun c => !(pertence c colunasDesejadas)),
   rows.map (fun r =>
     (colunasDesejadas.filter (fun c => pertence c cols) ++
       cols.filter (fun c => !(pertence c colunasDesejadas))).map (celulaEm cols r))⟩

/-- Steps 5–8 of criar_dataframe_consolidado (src/main.py), for
per-resource observation tables sharing one column list (pd.concat of
same-column frames is row concatenation): concatenate in order, drop exact
duplicates keeping first occurrences, normalize the VALOR column, rename to
the published names, insert the dense 1-based id as the first column, and
reorder the columns. -/
def criar_dataframe_consolidado (cols : List PyStr)
    (tabelas : List (List (List Cell))) : DF :=
  reordenaColunas (pys "id" :: cols.map renomearFinal)
    (comIds 1 (aplicaLimparValor cols (drop_duplicates tabelas.flatten)))

/-- The dense integer sequence k, k+1, ..., of the given length. -/
def sequenciaDesde (k : Nat) : Nat → List Nat
  | 0 => []
  | n + 1 => k :: sequenciaDesde (k + 1) n

/-- Example consolidation input: two resources holding the same single
observation row (so deduplication collapses them). -/
def colsExemplo : List PyStr :=
  [pys "GRUPO_ECONOMICO", pys "VARIAVEL", pys "REFERENCIA_MES",
   pys "VALOR", pys "SERVICO"]

/-- The shared example observation row. -/
def linhaExemplo : List Cell :=
  [Cell.str (pys "ALGAR"), Cell.str (pys "IDA"), Cell.ym 2020 1,
   Cell.str (pys "85.50"), Cell.str (pys "SCM")]

/-- Two example per-resource tables with an exact duplicate row. -/
def tabelasExemplo : List (List (List Cell)) := [[linhaExemplo], [linhaExemplo]]

/-- A value as sent to the database driver: NULL, text, int, or a native
datetime (month start). -/
inductive SQLVal
  | null
  | text (s : PyStr)
  | int (n : Nat)
  | timestamp (y m : Nat)
deriving DecidableEq

/-- A bulk-insert row. -/
abbrev SQLRow := List SQLVal

/-- The contents of the target table: column names and rows. -/
structure SQLTable where
  colunas : List PyStr
  linhas : List SQLRow
deriving DecidableEq

/-- A psycopg2 session on one connection: the last committed state of the
target table (`none` = table absent) and the in-transaction working state.
PostgreSQL DDL is transactional, so DROP/CREATE live in the working state
until commit. -/
structure PgSessao where
  committed : Option SQLTable
  working : Option SQLTable
deriving DecidableEq

/-- `DROP TABLE IF EXISTS ... CASCADE` inside the transaction. -/
def execDropTable (s : PgSessao) : PgSessao := { s with working := none }

/-- `CREATE TABLE` inside the transaction. -/
def execCreateTable (cols : List PyStr) (s : PgSessao) : PgSessao :=
  { s with working := some ⟨cols, []⟩ }

/-- `cursor.executemany INSERT` inside the transaction. -/
def execInsertMany (tuples : List SQLRow) (s : PgSessao) : PgSessao :=
  { s with working := s.working.map (fun t => ⟨t.colunas, t.linhas ++ tuples⟩) }

/-- `connection.commit()`. -/
def commitSessao (s : PgSessao) : PgSessao := { s with committed := s.working }

/-- `connection.rollback()`: discard the transaction's work. -/
def rollbackSessao (s : PgSessao) : PgSessao := { s with working := s.committed }

/-- Python `str.lower()` on one character, covering ASCII and the Latin-1
letters. -/
def pyToLowerChar (c : Char) : Char :=
  if ('A' ≤ c ∧ c ≤ 'Z') ∨ (0xC0 ≤ c.toNat ∧ c.toNat ≤ 0xDE ∧ c.toNat ≠ 0xD7) then
    Char.ofNat (c.toNat + 32)
  else c

/-- Column-name normalization of preprocess_dataframe
(src/connect_postgre.py): spaces, hyphens and periods become underscores,
then everything is lower-cased. -/
def normalizaNomeColuna (c : PyStr) : PyStr :=
  (mapChar '.' '_' (mapChar '-' '_' (mapChar ' ' '_' c))).map pyToLowerChar

/-- `pd.to_datetime(x, errors='coerce')` for the referencia_mes step of
preprocess_dataframe (never exercised on the shipped schema, whose column
is named mes_referencia): strings parse as `YYYY-MM` or as a full
timestamp; anything unparseable coerces to NaT. -/
def paraDatetimeGeral : Cell → Cell
  | Cell.str s =>
    match parseAnoMesEstrito s with
    | some (y, m) => Cell.ym y m
    | none =>
      match strptimeTimestamp s with
      | some (y, m) => Cell.ym y m
      | none => Cell.null
  | Cell.ym y m => Cell.ym y m
  | _ => Cell.null

/-- pandas column update by label, `df[name] = df[name].apply(f)`, for a
frame with unique labels (by the label's first position). -/
def mapColuna (df : DF) (nome : PyStr) (f : Cell → Cell) : DF :=
  match idxDe nome df.cols with
  | none => df
  | some j => ⟨df.cols, df.rows.map (atualizaIdx j f)⟩

/-- First step of preprocess_dataframe: the referencia_mes conversion,
guarded by the column's presence. -/
def preprocess_etapa1 (df : DF) : DF :=
  if pys "referencia_mes" ∈ df.cols then
    mapColuna df (pys "referencia_mes") paraDatetimeGeral
  else df

/-- Second step of preprocess_dataframe: replace empty strings in the
valor column by null, guarded by the column's presence. -/
def preprocess_etapa2 (df : DF) : DF :=
  if pys "valor" ∈ df.cols then
    mapColuna df (pys "valor") (fun c => if c = Cell.str [] then Cell.null else c)
  else df

/-- preprocess_dataframe (src/connect_postgre.py): the referencia_mes and
valor steps, then column-name normalization. -/
def preprocess_dataframe (df : DF) : DF :=
  ⟨(preprocess_etapa2 (preprocess_etapa1 df)).cols.map normalizaNomeColuna,
   (preprocess_etapa2 (preprocess_etapa1 df)).rows⟩

/-- Per-value coercion of create_table_from_csv: null → NULL, timestamp →
native datetime, int → int, text → str. -/
def celulaParaSQL : Cell → SQLVal
  | Cell.null => SQLVal.null
  | Cell.ym y m => SQLVal.timestamp y m
  | Cell.int n => SQLVal.int n
  | Cell.str s => SQLVal.text s

/-- The batch of insert tuples built by create_table_from_csv. -/
def linhasParaTuplas (df : DF) : List SQLRow :=
  df.rows.map (fun r => r.map celulaParaSQL)

/-- create_table_from_csv (src/connect_postgre.py), from the parsed CSV
frame on: preprocess, DROP TABLE IF EXISTS, CREATE TABLE, bulk INSERT and
commit, all on one connection and hence in one transaction; a psycopg2
error during the insert (modelled by the flag) triggers
connection.rollback().  Column-type resolution
(get_column_type_for_your_table) only shapes the DDL text and is not
modelled.  Returns the committed table state visible after the call and
the boolean result. -/
def create_table_from_csv (committed : Option SQLTable) (dfCsv : DF)
    (insertFalha : Bool) : Option SQLTable × Bool :=
  if insertFalha then
    ((rollbackSessao (execCreateTable (preprocess_dataframe dfCsv).cols
      (execDropTable ⟨committed, committed⟩))).committed, false)
  else
    ((commitSessao (execInsertMany (linhasParaTuplas (preprocess_dataframe dfCsv))
      (execCreateTable (preprocess_dataframe dfCsv).cols
        (execDropTable ⟨committed, committed⟩)))).committed, true)

/-- Example CSV frame for the loader, with an empty-string valor cell. -/
def dfExemploCsv : DF :=
  ⟨[pys "id", pys "grupo_economico", pys "valor"],
   [[Cell.int 1, Cell.str (pys "ALGAR"), Cell.str (pys "85.5")],
    [Cell.int 2, Cell.str (pys "OI"), Cell.str []]]⟩

/-- The table committed by a successful load of the example frame. -/
def tabelaExemplo10 : SQLTable :=
  ⟨(preprocess_dataframe dfExemploCsv).cols,
   linhasParaTuplas (preprocess_dataframe dfExemploCsv)⟩

/-- The amended description of limpar_valor_final: empty text maps to
empty; text with a period keeps only its first two period-separated
segments, with trailing zeros stripped from the second segment and the
period dropped when that segment empties; text without a period passes
through unchanged. -/
def trimFinalSpec (s : PyStr) : PyStr :=
  if s = [] then []
  else
    match s.dropWhile (naoEh '.') with
    | [] => s
    | _ :: r =>
      if pyRstrip0 (r.takeWhile (naoEh '.')) = [] then s.takeWhile (naoEh '.')
      else s.takeWhile (naoEh '.') ++ '.' :: pyRstrip0 (r.takeWhile (naoEh '.'))

end IdaEtl

namespace IdaEtl

theorem matchTimestamp_imp_matchAnoMes (s : PyStr)
    (h : matchTimestampCompleto s = true) : matchAnoMes s = true := by
  unfold matchTimestampCompleto reTimestamp at h
  unfold matchAnoMes
  cases hr : reAnoMes s with
  | none => rw [hr] at h; simp [Option.bind] at h
  | some t => simp

theorem normalizar_coluna_eq_id (s : PyStr) : normalizar_coluna s = s := by
  unfold normalizar_coluna
  by_cases h1 : matchAnoMes s = true
  · simp [h1]
  · have h2 : matchTimestampCompleto s = false := by
      cases h : matchTimestampCompleto s
      · rfl
      · exact absurd (matchTimestamp_imp_matchAnoMes s h) h1
    simp [h1, h2]

/-- C1: the claim says normalizar_colunas_data renames a column labelled with
a full timestamp `YYYY-MM-DD HH:MM:SS` to its `YYYY-MM` form so that the
label is later parseable by the reshaper.  In the source the year-month
prefix pattern is tested first and also matches every full timestamp, so the
rename branch is unreachable: the function renames nothing.  The timestamp
label is still classified as a period column (prefix match) but
`pd.to_datetime(..., format='%Y-%m')` coerces it to NaT, contradicting the
claim and the function's own docstring example `'2013-01-01 00:00:00' →
'2013-01'`. -/
theorem claim1_normalizar_nunca_renomeia :
    (∀ cols, normalizar_colunas_data cols = cols) ∧
    normalizar_colunas_data [pys "2013-01-01 00:00:00"] = [pys "2013-01-01 00:00:00"] ∧
    pys "2013-01-01 00:00:00" ≠ pys "2013-01" ∧
    classificaData (pys "2013-01-01 00:00:00") = true ∧
    parseAnoMesEstrito (pys "2013-01-01 00:00:00") = none := by
  refine ⟨fun cols => ?_, by decide, by decide, by decide, by decide⟩
  simp only [normalizar_colunas_data]
  have h : ∀ c ∈ cols, normalizar_coluna c = c := fun c _ => normalizar_coluna_eq_id c
  calc cols.map normalizar_coluna = cols.map id := List.map_congr_left h
    _ = cols := List.map_id cols

theorem encontrarAux_of_none (rows : List RawRow)
    (h : ∀ r ∈ rows, temMarcadorCabecalho r = false) :
    ∀ i, encontrarAux i rows = 0 := by
  induction rows with
  | nil => intro i; rfl
  | cons r rs ih =>
    intro i
    have hr := h r (by simp)
    simp only [encontrarAux, hr]
    exact ih (fun x hx => h x (by simp [hx])) (i + 1)

theorem encontrarAux_of_some (rows : List RawRow)
    (h : ∃ r ∈ rows, temMarcadorCabecalho r = true) :
    ∀ i, ∃ k, encontrarAux i rows = i + k ∧
      (rows.get? k).map temMarcadorCabecalho = some true ∧
      ∀ j, j < k → (rows.get? j).map temMarcadorCabecalho ≠ some true := by
  induction rows with
  | nil => rcases h with ⟨r, hr, _⟩; exact absurd hr (by simp)
  | cons r rs ih =>
    intro i
    by_cases hr : temMarcadorCabecalho r = true
    · exact ⟨0, by simp [encontrarAux, hr]⟩
    · have hr' : temMarcadorCabecalho r = false := by
        cases hb : temMarcadorCabecalho r
        · rfl
        · exact absurd hb hr
      have hrs : ∃ x ∈ rs, temMarcadorCabecalho x = true := by
        rcases h with ⟨x, hx, hxt⟩
        rcases List.mem_cons.mp hx with rfl | hx'
        · exact absurd hxt hr
        · exact ⟨x, hx', hxt⟩
      rcases ih hrs (i + 1) with ⟨k, hk1, hk2, hk3⟩
      refine ⟨k + 1, ?_, by simpa using hk2, ?_⟩
      · have hstep : encontrarAux i (r :: rs) = encontrarAux (i + 1) rs := by
          simp [encontrarAux, hr']
        rw [hstep, hk1]
        omega
      · intro j hj
        cases j with
        | zero => simp [hr']
        | succ j' => simpa using hk3 j' (by omega)

/-- C6: encontrar_linha_inicio_dados returns the zero-based index of the
first row whose concatenated non-missing cell text contains,
case-insensitively, the header marker `GRUPO ECONÔMICO` or `GRUPO_ECON`,
and returns 0 when no row matches (totality of the embedding shows it never
raises). -/
theorem claim6_encontrar_primeiro_marcador (rows : List RawRow) :
    ((∃ r ∈ rows, temMarcadorCabecalho r = true) →
      (rows.get? (encontrar_linha_inicio_dados rows)).map temMarcadorCabecalho = some true ∧
      ∀ j, j < encontrar_linha_inicio_dados rows →
        (rows.get? j).map temMarcadorCabecalho ≠ some true) ∧
    ((∀ r ∈ rows, temMarcadorCabecalho r = false) →
      encontrar_linha_inicio_dados rows = 0) := by
  constructor
  · intro h
    rcases encontrarAux_of_some rows h 0 with ⟨k, hk1, hk2, hk3⟩
    have hk : encontrar_linha_inicio_dados rows = k := by
      simpa [encontrar_linha_inicio_dados] using hk1
    rw [hk]
    exact ⟨hk2, hk3⟩
  · intro h
    simpa [encontrar_linha_inicio_dados] using encontrarAux_of_none rows h 0

/-- Witness for C6 at the spec's example grid: the marker row has index 3. -/
theorem claim6_encontrar_primeiro_marcador_witness :
    encontrar_linha_inicio_dados gradeExemplo = 3 ∧
    ((gradeExemplo.get? (encontrar_linha_inicio_dados gradeExemplo)).map
        temMarcadorCabecalho = some true ∧
      ∀ j, j < encontrar_linha_inicio_dados gradeExemplo →
        (gradeExemplo.get? j).map temMarcadorCabecalho ≠ some true) :=
  ⟨by decide, (claim6_encontrar_primeiro_marcador gradeExemplo).1 (by decide)⟩

theorem dropWhile_head_false {α : Type} {p : α → Bool} :
    ∀ {l r : List α} {c : α}, l.dropWhile p = c :: r → p c = false := by
  intro l
  induction l with
  | nil => intro r c h; simp [List.dropWhile] at h
  | cons a t ih =>
    intro r c h
    by_cases ha : p a = true
    · rw [List.dropWhile_cons_of_pos ha] at h
      exact ih h
    · rw [List.dropWhile_cons_of_neg ha] at h
      obtain ⟨rfl, -⟩ := List.cons_eq_cons.mp h
      cases hb : p a
      · rfl
      · exact absurd hb ha

theorem dropWhile_dropWhile {α : Type} (p : α → Bool) (l : List α) :
    (l.dropWhile p).dropWhile p = l.dropWhile p := by
  cases h : l.dropWhile p with
  | nil => rfl
  | cons c r => rw [List.dropWhile_cons_of_neg (by rw [dropWhile_head_false h]; simp)]

theorem dropWhile_eq_self_of_all {α : Type} {p : α → Bool} {l : List α}
    (h : ∀ c ∈ l, p c = false) : l.dropWhile p = l := by
  cases l with
  | nil => rfl
  | cons a t => exact List.dropWhile_cons_of_neg (by rw [h a (by simp)]; simp)

theorem takeWhile_eq_self_of_all {α : Type} {p : α → Bool} {l : List α}
    (h : ∀ c ∈ l, p c = true) : l.takeWhile p = l := by
  induction l with
  | nil => rfl
  | cons a t ih =>
    rw [List.takeWhile_cons_of_pos (h a (by simp))]
    rw [ih (fun c hc => h c (by simp [hc]))]

theorem dropWhile_eq_nil_of_all {α : Type} {p : α → Bool} {l : List α}
    (h : ∀ c ∈ l, p c = true) : l.dropWhile p = [] := by
  induction l with
  | nil => rfl
  | cons a t ih =>
    rw [List.dropWhile_cons_of_pos (h a (by simp))]
    exact ih (fun c hc => h c (by simp [hc]))

theorem mem_of_mem_dropWhile {α : Type} {p : α → Bool} {l : List α} {c : α}
    (h : c ∈ l.dropWhile p) : c ∈ l := by
  induction l with
  | nil => simp [List.dropWhile] at h
  | cons a t ih =>
    by_cases ha : p a = true
    · rw [List.dropWhile_cons_of_pos ha] at h
      exact List.mem_cons_of_mem a (ih h)
    · rw [List.dropWhile_cons_of_neg ha] at h
      exact h

theorem mem_takeWhile {α : Type} {p : α → Bool} {l : List α} {c : α}
    (h : c ∈ l.takeWhile p) : c ∈ l ∧ p c = true := by
  induction l with
  | nil => simp [List.takeWhile] at h
  | cons a t ih =>
    by_cases ha : p a = true
    · rw [List.takeWhile_cons_of_pos ha] at h
      rcases List.mem_cons.mp h with rfl | h'
      · exact ⟨by simp, ha⟩
      · rcases ih h' with ⟨h1, h2⟩
        exact ⟨by simp [h1], h2⟩
    · rw [List.takeWhile_cons_of_neg ha] at h
      simp at h

theorem takeWhile_dropWhile_append {α : Type} {p : α → Bool} {a : List α} {x : α}
    {r : List α} (ha : ∀ c ∈ a, p c = true) (hx : p x = false) :
    (a ++ x :: r).takeWhile p = a ∧ (a ++ x :: r).dropWhile p = x :: r := by
  induction a with
  | nil =>
    constructor
    · exact List.takeWhile_cons_of_neg (by simp [hx])
    · exact List.dropWhile_cons_of_neg (by simp [hx])
  | cons b t ih =>
    have hb : p b = true := ha b (by simp)
    have ih' := ih (fun c hc => ha c (by simp [hc]))
    constructor
    · rw [List.cons_append, List.takeWhile_cons_of_pos hb, ih'.1]
    · rw [List.cons_append, List.dropWhile_cons_of_pos hb, ih'.2]

theorem head?_append_left {α : Type} {l : List α} (r : List α) {c : α}
    (h : l.head? = some c) : (l ++ r).head? = some c := by
  cases l with
  | nil => simp at h
  | cons a t => simpa using h

theorem head_dropWhile_false {α : Type} {p : α → Bool} {l : List α} {c : α}
    (h : (l.dropWhile p).head? = some c) : p c = false := by
  cases hd : l.dropWhile p with
  | nil => rw [hd] at h; simp at h
  | cons a t =>
    rw [hd] at h
    have hac : a = c := by simpa using h
    exact hac ▸ dropWhile_head_false hd

theorem pyStrip_eq_self {y : PyStr}
    (h1 : ∀ c, y.head? = some c → c.isWhitespace = false)
    (h2 : ∀ c, y.getLast? = some c → c.isWhitespace = false) :
    pyStrip y = y := by
  unfold pyStrip
  have e1 : y.dropWhile Char.isWhitespace = y := by
    cases hy : y with
    | nil => rfl
    | cons a t =>
      refine List.dropWhile_cons_of_neg ?_
      rw [h1 a (by rw [hy]; rfl)]
      simp
  rw [e1]
  have e2 : y.reverse.dropWhile Char.isWhitespace = y.reverse := by
    cases hy : y.reverse with
    | nil => rfl
    | cons a t =>
      refine List.dropWhile_cons_of_neg ?_
      have ha : y.getLast? = some a := by
        rw [← List.head?_reverse, hy]
        rfl
      rw [h2 a ha]
      simp
  rw [e2, List.reverse_reverse]

theorem pyStrip_idem (s : PyStr) : pyStrip (pyStrip s) = pyStrip s := by
  apply pyStrip_eq_self
  · intro c hc
    have hL : (pyStrip s).head? =
        (((s.dropWhile Char.isWhitespace).reverse.dropWhile Char.isWhitespace)).getLast? := by
      unfold pyStrip
      exact List.head?_reverse _
    rw [hL] at hc
    have hdec := (List.takeWhile_append_dropWhile
      (p := Char.isWhitespace) (l := (s.dropWhile Char.isWhitespace).reverse))
    cases hLnil : (s.dropWhile Char.isWhitespace).reverse.dropWhile Char.isWhitespace with
    | nil => rw [hLnil] at hc; simp at hc
    | cons d u =>
      rw [hLnil] at hc hdec
      have hlast : (s.dropWhile Char.isWhitespace).reverse.getLast? = some c := by
        rw [← hdec]
        rw [List.getLast?_append_of_ne_nil _ (by simp)]
        exact hc
      rw [List.getLast?_reverse] at hlast
      exact head_dropWhile_false hlast
  · intro c hc
    have hL : (pyStrip s).getLast? =
        (((s.dropWhile Char.isWhitespace).reverse.dropWhile Char.isWhitespace)).head? := by
      unfold pyStrip
      exact List.getLast?_reverse _
    rw [hL] at hc
    exact head_dropWhile_false hc

theorem pyStrip_eq_self_of_no_ws {s : PyStr}
    (h : ∀ c ∈ s, c.isWhitespace = false) : pyStrip s = s := by
  unfold pyStrip
  rw [dropWhile_eq_self_of_all h]
  rw [dropWhile_eq_self_of_all (fun c hc => h c (List.mem_reverse.mp hc))]
  exact s.reverse_reverse

theorem pyRstrip0_idem (b : PyStr) : pyRstrip0 (pyRstrip0 b) = pyRstrip0 b := by
  unfold pyRstrip0
  rw [List.reverse_reverse, dropWhile_dropWhile]

theorem mem_pyRstrip0 {b : PyStr} {c : Char} (h : c ∈ pyRstrip0 b) : c ∈ b := by
  unfold pyRstrip0 at h
  exact List.mem_reverse.mp (mem_of_mem_dropWhile (List.mem_reverse.mp h))

theorem contem_iff (x : Char) (s : PyStr) : contem x s = true ↔ x ∈ s := by
  constructor
  · intro h
    rcases List.any_eq_true.mp h with ⟨c, hc, he⟩
    exact (eq_of_beq he) ▸ hc
  · intro h
    exact List.any_eq_true.mpr ⟨x, h, by simp⟩

theorem contem_eq_false_iff (x : Char) (s : PyStr) : contem x s = false ↔ x ∉ s := by
  constructor
  · intro h hm
    rw [(contem_iff x s).mpr hm] at h
    cases h
  · intro h
    cases hc : contem x s
    · rfl
    · exact absurd ((contem_iff x s).mp hc) h

theorem isDigit_ne_dot {c : Char} (h : c.isDigit = true) : (c == '.') = false := by
  cases hb : c == '.'
  · rfl
  · obtain rfl : c = '.' := eq_of_beq hb
    exact absurd h (by decide)

theorem isDigit_not_ws {c : Char} (h : c.isDigit = true) : c.isWhitespace = false := by
  cases hw : c.isWhitespace
  · rfl
  · exfalso
    simp only [Char.isWhitespace, Bool.or_eq_true, decide_eq_true_eq] at hw
    rcases hw with ((h1 | h1) | h1) | h1 <;> (subst h1; exact absurd h (by decide))

theorem removeChar_eq_self_of_all {x : Char} {l : PyStr}
    (h : ∀ c ∈ l, (c == x) = false) : removeChar x l = l := by
  unfold removeChar
  apply List.filter_eq_self.mpr
  intro c hc
  rw [h c hc]
  rfl

theorem removeChar_append (x : Char) (a b : PyStr) :
    removeChar x (a ++ b) = removeChar x a ++ removeChar x b :=
  List.filter_append a b

theorem removeChar0_nil_iff (b : PyStr) :
    (removeChar '0' b = []) ↔ (pyRstrip0 b = []) := by
  unfold removeChar pyRstrip0
  rw [List.filter_eq_nil_iff, List.reverse_eq_nil_iff, List.dropWhile_eq_nil_iff]
  constructor
  · intro h c hc
    have := h c (List.mem_reverse.mp hc)
    simp only [Bool.not_eq_true'] at this
    simpa using this
  · intro h c hc
    have := h c (List.mem_reverse.mpr hc)
    simp only [Bool.not_eq_true']
    simpa using this

theorem pySplit_eq (sep : Char) (s : PyStr) :
    pySplit sep s =
      s.takeWhile (naoEh sep) ::
        (match s.dropWhile (naoEh sep) with
         | [] => []
         | _ :: r => pySplit sep r) := by
  induction s with
  | nil => rfl
  | cons c cs ih =>
    by_cases h : c = sep
    · have hp : naoEh sep c = false := by simp [naoEh, h]
      rw [List.takeWhile_cons_of_neg (by rw [hp]; simp),
        List.dropWhile_cons_of_neg (by rw [hp]; simp)]
      simp [pySplit, h]
    · have hp : naoEh sep c = true := by simp [naoEh, h]
      rw [List.takeWhile_cons_of_pos hp, List.dropWhile_cons_of_pos hp]
      rw [pySplit, if_neg h, ih]

theorem pySplit_ne_nil (sep : Char) (s : PyStr) : pySplit sep s ≠ [] := by
  rw [pySplit_eq]
  simp

theorem pySplit_decomp {x : Char} {s r : PyStr}
    (hdw : s.dropWhile (naoEh x) = x :: r) :
    pySplit x s = s.takeWhile (naoEh x) :: pySplit x r := by
  rw [pySplit_eq, hdw]

theorem pySplit_no_sep {x : Char} {s : PyStr} (h : contem x s = false) :
    pySplit x s = [s] := by
  have hall : ∀ c ∈ s, naoEh x c = true := by
    intro c hc
    simp only [naoEh, Bool.not_eq_true']
    cases hb : c == x
    · rfl
    · exact absurd ((eq_of_beq hb) ▸ hc) ((contem_eq_false_iff x s).mp h)
  rw [pySplit_eq, dropWhile_eq_nil_of_all hall, takeWhile_eq_self_of_all hall]

theorem dropWhile_contem {x : Char} {s : PyStr} (h : contem x s = true) :
    ∃ r, s.dropWhile (naoEh x) = x :: r ∧
      s = s.takeWhile (naoEh x) ++ x :: r := by
  cases hdw : s.dropWhile (naoEh x) with
  | nil =>
    exfalso
    have hx := (contem_iff x s).mp h
    have hall := List.dropWhile_eq_nil_iff.mp hdw
    have := hall x hx
    simp [naoEh] at this
  | cons c r =>
    have hc : naoEh x c = false := dropWhile_head_false hdw
    have hcx : c = x := by
      have hb : (c == x) = true := by simpa [naoEh] using hc
      exact eq_of_beq hb
    rw [hcx] at hdw
    refine ⟨r, by rw [hcx], ?_⟩
    conv_lhs => rw [← List.takeWhile_append_dropWhile (naoEh x) s]
    rw [hdw]

theorem removeChar_eq_self_of_not_contem {x : Char} {l : PyStr}
    (h : contem x l = false) : removeChar x l = l :=
  removeChar_eq_self_of_all (fun c hc => by
    cases hb : c == x
    · rfl
    · exact absurd ((eq_of_beq hb) ▸ hc) ((contem_eq_false_iff x l).mp h))

theorem removeChar_cons_self (x : Char) (l : PyStr) :
    removeChar x (x :: l) = removeChar x l := by
  unfold removeChar
  rw [List.filter_cons_of_neg (by simp)]

theorem takeWhile_nao_contem (x : Char) (s : PyStr) :
    contem x (s.takeWhile (naoEh x)) = false := by
  rw [contem_eq_false_iff]
  intro hm
  have := (mem_takeWhile hm).2
  simp [naoEh] at this

theorem removeChar_decomp {s r : PyStr}
    (hs : s = s.takeWhile (naoEh '.') ++ '.' :: r) (hrf : contem '.' r = false) :
    removeChar '.' s = s.takeWhile (naoEh '.') ++ r := by
  conv_lhs => rw [hs]
  rw [removeChar_append, removeChar_cons_self,
    removeChar_eq_self_of_not_contem (takeWhile_nao_contem '.' s),
    removeChar_eq_self_of_not_contem hrf]

theorem casaInteiroFracao_eval {s r : PyStr}
    (hdw : s.dropWhile (naoEh '.') = '.' :: r) :
    casaInteiroFracao s =
      (if (!contem '.' r && pyIsDigitStr (s.takeWhile (naoEh '.') ++ r)) = true then
        some (s.takeWhile (naoEh '.'), r)
      else none) := by
  unfold casaInteiroFracao
  rw [hdw]

theorem casaInteiroFracao_none {s : PyStr} (hdw : s.dropWhile (naoEh '.') = []) :
    casaInteiroFracao s = none := by
  unfold casaInteiroFracao
  rw [hdw]

theorem decimalTrimSpec_of_some {s : PyStr} {a b : PyStr}
    (h : casaInteiroFracao s = some (a, b)) :
    decimalTrimSpec s = (if pyRstrip0 b = [] then a else a ++ '.' :: pyRstrip0 b) := by
  unfold decimalTrimSpec
  rw [h]

theorem decimalTrimSpec_of_none {s : PyStr} (h : casaInteiroFracao s = none) :
    decimalTrimSpec s = s := by
  unfold decimalTrimSpec
  rw [h]

theorem nao_contem_dropWhile_nil {x : Char} {s : PyStr} (h : contem x s = false) :
    s.dropWhile (naoEh x) = [] := by
  refine dropWhile_eq_nil_of_all (fun c hcm => ?_)
  simp only [naoEh, Bool.not_eq_true']
  cases hb : c == x
  · rfl
  · exact absurd ((eq_of_beq hb) ▸ hcm) ((contem_eq_false_iff x s).mp h)

theorem limpar_celula_str_eq_spec (s : PyStr) :
    limpar_celula_str s = decimalTrimSpec s := by
  by_cases hc : contem '.' s = true
  · obtain ⟨r, hdw, hs⟩ := dropWhile_contem hc
    by_cases hd : pyIsDigitStr (removeChar '.' s) = true
    · by_cases hr : contem '.' r = true
      · obtain ⟨r2, hdw2, -⟩ := dropWhile_contem hr
        have hcode : limpar_celula_str s = s := by
          unfold limpar_celula_str
          rw [if_pos (by rw [hc, hd]; rfl)]
          rw [pySplit_decomp hdw, pySplit_decomp hdw2]
          cases hps : pySplit '.' r2 with
          | nil => exact absurd hps (pySplit_ne_nil '.' r2)
          | cons m ms => rfl
        have hcasa : casaInteiroFracao s = none := by
          rw [casaInteiroFracao_eval hdw, if_neg (by rw [hr]; simp)]
        rw [hcode, decimalTrimSpec_of_none hcasa]
      · have hrf : contem '.' r = false := by
          cases hb : contem '.' r
          · rfl
          · exact absurd hb hr
        have hremove := removeChar_decomp hs hrf
        have hcode : limpar_celula_str s =
            (if removeChar '0' r = [] then s.takeWhile (naoEh '.')
             else if pyRstrip0 r ≠ [] then s.takeWhile (naoEh '.') ++ '.' :: pyRstrip0 r
             else s.takeWhile (naoEh '.')) := by
          unfold limpar_celula_str
          rw [if_pos (by rw [hc, hd]; rfl)]
          rw [pySplit_decomp hdw, pySplit_no_sep hrf]
        have hcasa : casaInteiroFracao s = some (s.takeWhile (naoEh '.'), r) := by
          rw [casaInteiroFracao_eval hdw]
          rw [if_pos (by rw [hrf, ← hremove, hd]; rfl)]
        rw [hcode, decimalTrimSpec_of_some hcasa]
        by_cases hnil : pyRstrip0 r = []
        · rw [if_pos ((removeChar0_nil_iff r).mpr hnil), if_pos hnil]
        · rw [if_neg (fun hh => hnil ((removeChar0_nil_iff r).mp hh)),
            if_neg hnil, if_pos hnil]
    · have hdf : pyIsDigitStr (removeChar '.' s) = false := by
        cases hb : pyIsDigitStr (removeChar '.' s)
        · rfl
        · exact absurd hb hd
      have hcode : limpar_celula_str s = s := by
        unfold limpar_celula_str
        rw [if_neg (by rw [hdf, Bool.and_false]; simp)]
      have hcasa : casaInteiroFracao s = none := by
        rw [casaInteiroFracao_eval hdw]
        by_cases hr : contem '.' r = true
        · rw [if_neg (by rw [hr]; simp)]
        · have hrf : contem '.' r = false := by
            cases hb : contem '.' r
            · rfl
            · exact absurd hb hr
          have hremove := removeChar_decomp hs hrf
          rw [if_neg (by rw [hrf, ← hremove, hdf, Bool.and_false]; simp)]
      rw [hcode, decimalTrimSpec_of_none hcasa]
  · have hcf : contem '.' s = false := by
      cases hb : contem '.' s
      · rfl
      · exact absurd hb hc
    have hcode : limpar_celula_str s = s := by
      unfold limpar_celula_str
      rw [if_neg (by rw [hcf, Bool.false_and]; simp)]
    rw [hcode, decimalTrimSpec_of_none (casaInteiroFracao_none (nao_contem_dropWhile_nil hcf))]

theorem limpar_valor_final_str_eq_spec (s : PyStr) :
    limpar_valor_final_str s = trimFinalSpec s := by
  by_cases hnil : s = []
  · rw [hnil]; rfl
  · by_cases hc : contem '.' s = true
    · obtain ⟨r, hdw, -⟩ := dropWhile_contem hc
      unfold limpar_valor_final_str trimFinalSpec
      rw [if_neg hnil, if_neg hnil, if_pos hc]
      rw [pySplit_decomp hdw, pySplit_eq '.' r, hdw]
      by_cases hq : pyRstrip0 (r.takeWhile (naoEh '.')) = []
      · simp [hq]
      · simp [hq]
    · have hcf : contem '.' s = false := by
        cases hb : contem '.' s
        · rfl
        · exact absurd hb hc
      unfold limpar_valor_final_str trimFinalSpec
      rw [if_neg hnil, if_neg hnil, if_neg (by rw [hcf]; simp),
        nao_contem_dropWhile_nil hcf]

theorem pyIsDigitStr_mem {s : PyStr} (h : pyIsDigitStr s = true) :
    ∀ c ∈ s, c.isDigit = true := by
  have h2 : s.all Char.isDigit = true := by
    simp only [pyIsDigitStr, Bool.and_eq_true] at h
    exact h.2
  exact fun c hc => List.all_eq_true.mp h2 c hc

theorem pyIsDigitStr_intro {s : PyStr} (hne : s ≠ [])
    (h : ∀ c ∈ s, c.isDigit = true) : pyIsDigitStr s = true := by
  simp only [pyIsDigitStr, Bool.and_eq_true]
  constructor
  · simp [List.isEmpty_iff, hne]
  · exact List.all_eq_true.mpr h

theorem naoEh_of_not_contem {x : Char} {l : PyStr} (h : contem x l = false) :
    ∀ c ∈ l, naoEh x c = true := by
  intro c hc
  cases hb : c == x
  · simp [naoEh, hb]
  · exact absurd ((eq_of_beq hb) ▸ hc) ((contem_eq_false_iff x l).mp h)

theorem contem_of_all_digits {l : PyStr} (h : ∀ c ∈ l, c.isDigit = true) :
    contem '.' l = false :=
  (contem_eq_false_iff '.' l).mpr (fun hm => absurd (h '.' hm) (by decide))

theorem casa_facts {s a b : PyStr} (h : casaInteiroFracao s = some (a, b)) :
    a = s.takeWhile (naoEh '.') ∧ contem '.' b = false ∧
    pyIsDigitStr (a ++ b) = true := by
  cases hdw : s.dropWhile (naoEh '.') with
  | nil => rw [casaInteiroFracao_none hdw] at h; cases h
  | cons c r =>
    have hcdot : c = '.' := by
      have hcf := dropWhile_head_false hdw
      have hb : (c == '.') = true := by simpa [naoEh] using hcf
      exact eq_of_beq hb
    rw [hcdot] at hdw
    rw [casaInteiroFracao_eval hdw] at h
    by_cases hcond :
        (!contem '.' r && pyIsDigitStr (s.takeWhile (naoEh '.') ++ r)) = true
    · rw [if_pos hcond] at h
      have hab := Option.some.inj h
      have ha : s.takeWhile (naoEh '.') = a := congrArg Prod.fst hab
      have hb2 : r = b := congrArg Prod.snd hab
      rw [Bool.and_eq_true] at hcond
      refine ⟨ha.symm, ?_, ?_⟩
      · rw [← hb2]
        simpa using hcond.1
      · rw [← ha, ← hb2]
        exact hcond.2
    · rw [if_neg hcond] at h
      cases h

theorem decimalTrimSpec_fix {s : PyStr} (hs : pyStrip s = s) :
    decimalTrimSpec (pyStrip (decimalTrimSpec s)) = decimalTrimSpec s := by
  cases hcasa : casaInteiroFracao s with
  | none => rw [decimalTrimSpec_of_none hcasa, hs, decimalTrimSpec_of_none hcasa]
  | some ab =>
    obtain ⟨a, b⟩ := ab
    obtain ⟨-, hbf, hdig⟩ := casa_facts hcasa
    have hdigall : ∀ c ∈ a ++ b, c.isDigit = true := pyIsDigitStr_mem hdig
    have hadig : ∀ c ∈ a, c.isDigit = true :=
      fun c hc => hdigall c (List.mem_append_left b hc)
    have hbdig : ∀ c ∈ b, c.isDigit = true :=
      fun c hc => hdigall c (List.mem_append_right a hc)
    rw [decimalTrimSpec_of_some hcasa]
    by_cases hnil : pyRstrip0 b = []
    · rw [if_pos hnil]
      have hstr : pyStrip a = a :=
        pyStrip_eq_self_of_no_ws (fun c hc => isDigit_not_ws (hadig c hc))
      rw [hstr,
        decimalTrimSpec_of_none
          (casaInteiroFracao_none (nao_contem_dropWhile_nil (contem_of_all_digits hadig)))]
    · rw [if_neg hnil]
      have hbldig : ∀ c ∈ pyRstrip0 b, c.isDigit = true :=
        fun c hc => hbdig c (mem_pyRstrip0 hc)
      have hstr : pyStrip (a ++ '.' :: pyRstrip0 b) = a ++ '.' :: pyRstrip0 b := by
        refine pyStrip_eq_self_of_no_ws (fun c hc => ?_)
        rcases List.mem_append.mp hc with hca | hcb
        · exact isDigit_not_ws (hadig c hca)
        · rcases List.mem_cons.mp hcb with rfl | hcb'
          · decide
          · exact isDigit_not_ws (hbldig c hcb')
      rw [hstr]
      have htwdw := takeWhile_dropWhile_append
        (p := naoEh '.') (a := a) (x := '.') (r := pyRstrip0 b)
        (naoEh_of_not_contem (contem_of_all_digits hadig))
        (by simp [naoEh])
      have hcasa2 : casaInteiroFracao (a ++ '.' :: pyRstrip0 b) =
          some (a, pyRstrip0 b) := by
        rw [casaInteiroFracao_eval htwdw.2, htwdw.1]
        rw [if_pos ?_]
        rw [Bool.and_eq_true]
        constructor
        · simp [contem_of_all_digits hbldig]
        · refine pyIsDigitStr_intro (fun hh => hnil ?_) (fun c hc => ?_)
          · cases hab : a ++ pyRstrip0 b with
            | nil => exact (List.append_eq_nil.mp hab).2
            | cons y ys => rw [hab] at hh; cases hh
          · rcases List.mem_append.mp hc with hca | hcb
            · exact hadig c hca
            · exact hbldig c hcb
      rw [decimalTrimSpec_of_some hcasa2, pyRstrip0_idem, if_neg hnil]

theorem trimFinalSpec_eval {s r : PyStr} (hnil : s ≠ [])
    (hdw : s.dropWhile (naoEh '.') = '.' :: r) :
    trimFinalSpec s =
      (if pyRstrip0 (r.takeWhile (naoEh '.')) = [] then s.takeWhile (naoEh '.')
       else s.takeWhile (naoEh '.') ++ '.' :: pyRstrip0 (r.takeWhile (naoEh '.'))) := by
  unfold trimFinalSpec
  rw [if_neg hnil, hdw]

theorem trimFinalSpec_nodot {s : PyStr} (hcf : contem '.' s = false) :
    trimFinalSpec s = s := by
  by_cases hnil : s = []
  · rw [hnil]; rfl
  · unfold trimFinalSpec
    rw [if_neg hnil, nao_contem_dropWhile_nil hcf]

theorem trimFinalSpec_fix (s : PyStr) :
    trimFinalSpec (trimFinalSpec s) = trimFinalSpec s := by
  by_cases hnil : s = []
  · rw [hnil]; decide
  · by_cases hc : contem '.' s = true
    · obtain ⟨r, hdw, -⟩ := dropWhile_contem hc
      rw [trimFinalSpec_eval hnil hdw]
      have hqdot : contem '.' (r.takeWhile (naoEh '.')) = false := takeWhile_nao_contem '.' r
      by_cases hq : pyRstrip0 (r.takeWhile (naoEh '.')) = []
      · rw [if_pos hq]
        exact trimFinalSpec_nodot (takeWhile_nao_contem '.' s)
      · rw [if_neg hq]
        have hbl_nodot : contem '.' (pyRstrip0 (r.takeWhile (naoEh '.'))) = false :=
          (contem_eq_false_iff _ _).mpr
            (fun hm => absurd (mem_pyRstrip0 hm) ((contem_eq_false_iff _ _).mp hqdot))
        have htwdw := takeWhile_dropWhile_append
          (p := naoEh '.') (a := s.takeWhile (naoEh '.')) (x := '.')
          (r := pyRstrip0 (r.takeWhile (naoEh '.')))
          (naoEh_of_not_contem (takeWhile_nao_contem '.' s))
          (by simp [naoEh])
        rw [trimFinalSpec_eval (by simp) htwdw.2, htwdw.1,
          takeWhile_eq_self_of_all (naoEh_of_not_contem hbl_nodot),
          pyRstrip0_idem, if_neg hq]
    · have hcf : contem '.' s = false := by
        cases hb : contem '.' s
        · rfl
        · exact absurd hb hc
      rw [trimFinalSpec_nodot hcf, trimFinalSpec_nodot hcf]

/-- C3 counterexample: the claim says non-matching text passes through both
trim sites unchanged, but limpar_valor_final rebuilds the non-matching text
`1.2.3` (which does not match integer.fraction) as `1.2`, discarding the
third period-separated segment. -/
theorem claim3_contraexemplo :
    limpar_valor_final (some (pys "1.2.3")) = pys "1.2" ∧
    casaInteiroFracao (pys "1.2.3") = none ∧
    pys "1.2" ≠ pys "1.2.3" := by decide

/-- C3 (amended): limpar_celula satisfies the claimed decimal-trim property
on its whitespace-stripped input — matching text is trimmed as claimed and
non-matching text is returned whitespace-stripped — with null unchanged;
limpar_valor_final maps null and empty text to the empty string, passes
dotless text through unchanged, and rebuilds any text containing a period
from only its first two period-separated segments (trailing zeros stripped
from the second, the period dropped when that segment empties), with no
all-digits check. -/
theorem claim3_limpeza_caracterizacao :
    (∀ v, limpar_celula (some v) = some (decimalTrimSpec (pyStrip v))) ∧
    limpar_celula none = none ∧
    (∀ v, limpar_valor_final (some v) = trimFinalSpec v) ∧
    limpar_valor_final none = [] :=
  ⟨fun v => congrArg some (limpar_celula_str_eq_spec (pyStrip v)), rfl,
   fun v => limpar_valor_final_str_eq_spec v, rfl⟩

/-- C8: both decimal-trim implementations are idempotent — applying
limpar_celula twice equals applying it once, and re-running
limpar_valor_final on its own (text) output returns it unchanged. -/
theorem claim8_limpeza_idempotente :
    (∀ x, limpar_celula (limpar_celula x) = limpar_celula x) ∧
    (∀ x, limpar_valor_final (some (limpar_valor_final x)) = limpar_valor_final x) := by
  constructor
  · intro x
    cases x with
    | none => rfl
    | some v =>
      show some (limpar_celula_str (pyStrip (limpar_celula_str (pyStrip v)))) =
        some (limpar_celula_str (pyStrip v))
      congr 1
      rw [limpar_celula_str_eq_spec (pyStrip v),
        limpar_celula_str_eq_spec (pyStrip (decimalTrimSpec (pyStrip v)))]
      exact decimalTrimSpec_fix (pyStrip_idem v)
  · intro x
    cases x with
    | none => rfl
    | some v =>
      show limpar_valor_final_str (limpar_valor_final_str v) = limpar_valor_final_str v
      rw [limpar_valor_final_str_eq_spec v,
        limpar_valor_final_str_eq_spec (trimFinalSpec v)]
      exact trimFinalSpec_fix v

theorem pertence_iff {α : Type} [DecidableEq α] (x : α) (l : List α) :
    pertence x l = true ↔ x ∈ l := by
  constructor
  · intro h
    rcases List.any_eq_true.mp h with ⟨c, hc, he⟩
    exact (of_decide_eq_true he) ▸ hc
  · intro h
    exact List.any_eq_true.mpr ⟨x, h, by simp⟩

theorem invalidos_sem_numerico :
    ∀ s ∈ valoresInvalidos, s.filter caractereNumerico = [] := by decide

theorem pySplit_length (x : Char) (s : PyStr) :
    (pySplit x s).length = s.count x + 1 := by
  induction s with
  | nil => rfl
  | cons c cs ih =>
    by_cases h : c = x
    · rw [pySplit, if_pos h]
      simp only [List.length_cons, List.count_cons, ih, h]
      simp
    · rw [pySplit, if_neg h]
      cases hps : pySplit x cs with
      | nil => exact absurd hps (pySplit_ne_nil x cs)
      | cons t ts =>
        rw [hps] at ih
        have hbe : (c == x) = false := by
          cases hb : c == x
          · rfl
          · exact absurd (eq_of_beq hb) h
        simp only [List.length_cons, List.count_cons, hbe, Bool.false_eq_true,
          if_false] at ih ⊢
        omega

theorem pySplit_flatten (x : Char) (s : PyStr) :
    (pySplit x s).flatten = removeChar x s := by
  induction s with
  | nil => rfl
  | cons c cs ih =>
    by_cases h : c = x
    · rw [pySplit, if_pos h, List.flatten_cons, List.nil_append, ih, h,
        removeChar_cons_self]
    · rw [pySplit, if_neg h]
      have hbe : (c == x) = false := by
        cases hb : c == x
        · rfl
        · exact absurd (eq_of_beq hb) h
      cases hps : pySplit x cs with
      | nil => exact absurd hps (pySplit_ne_nil x cs)
      | cons t ts =>
        rw [hps] at ih
        show (c :: t) ++ ts.flatten = removeChar x (c :: cs)
        have hrc : removeChar x (c :: cs) = c :: removeChar x cs := by
          unfold removeChar
          rw [List.filter_cons_of_pos (by rw [hbe]; rfl)]
        rw [hrc, ← ih]
        rfl

theorem converter_some (v : PyStr) :
    converter_para_numero (some v) =
      (if pertence (pyStrip v) valoresInvalidos then []
       else if limpezaNumerica v = [] then []
       else if contem ',' (limpezaNumerica v) then
         if contem '.' (limpezaNumerica v) then
           match pySplit ',' (limpezaNumerica v) with
           | [] => []
           | [p] => removeChar '.' p
           | p :: q :: _ => removeChar '.' p ++ '.' :: q
         else mapChar ',' '.' (limpezaNumerica v)
       else if contem '.' (limpezaNumerica v) then
         if (pySplit '.' (limpezaNumerica v)).length > 2 then
           (pySplit '.' (limpezaNumerica v)).flatten
         else limpezaNumerica v
       else limpezaNumerica v) := rfl

theorem limpeza_ne_nil_facts {v : PyStr} {x : Char}
    (hx : contem x (limpezaNumerica v) = true) :
    pertence (pyStrip v) valoresInvalidos = false ∧ limpezaNumerica v ≠ [] := by
  have hne : limpezaNumerica v ≠ [] := List.ne_nil_of_mem ((contem_iff x _).mp hx)
  refine ⟨?_, hne⟩
  cases hb : pertence (pyStrip v) valoresInvalidos
  · rfl
  · exfalso
    exact hne (invalidos_sem_numerico (pyStrip v) ((pertence_iff _ _).mp hb))

/-- C4 counterexample: with two commas, the claim (periods left of the last
comma are removed, that comma becomes the period) demands `1,2.3,4 → 1,23.4`,
but the source splits at the first comma, keeps the `2.3` segment (with its
period) as the decimal part, and discards `,4`, producing `1.2.3`. -/
theorem claim4_contraexemplo :
    converter_para_numero (some (pys "1,2.3,4")) = pys "1.2.3" ∧
    claim4Transformacao (pys "1,2.3,4") = pys "1,23.4" ∧
    pys "1.2.3" ≠ pys "1,23.4" := by decide

/-- C4 (amended): when the cleaned token has both a comma and a period,
periods before the FIRST comma are removed, the first comma becomes the
decimal point, the segment between the first and second commas is kept
verbatim (retaining any periods), and everything from the second comma on
is discarded — for a single comma this coincides with the claim; when a
comma is present with no period, every comma is replaced by a period. -/
theorem claim4_virgula_caracterizacao :
    (∀ v, contem ',' (limpezaNumerica v) = true →
      contem '.' (limpezaNumerica v) = true →
      converter_para_numero (some v) = transformacaoVirgulaPonto (limpezaNumerica v)) ∧
    (∀ v, contem ',' (limpezaNumerica v) = true →
      contem '.' (limpezaNumerica v) = false →
      converter_para_numero (some v) = mapChar ',' '.' (limpezaNumerica v)) := by
  constructor
  · intro v h1 h2
    obtain ⟨hperte, hne⟩ := limpeza_ne_nil_facts h1
    obtain ⟨r, hdw, -⟩ := dropWhile_contem h1
    rw [converter_some]
    rw [if_neg (by rw [hperte]; simp), if_neg hne, if_pos h1, if_pos h2]
    rw [pySplit_decomp hdw, pySplit_eq ',' r]
    unfold transformacaoVirgulaPonto
    rw [hdw]
    rfl
  · intro v h1 h2
    obtain ⟨hperte, hne⟩ := limpeza_ne_nil_facts h1
    rw [converter_some]
    rw [if_neg (by rw [hperte]; simp), if_neg hne, if_pos h1,
      if_neg (by rw [h2]; simp)]

/-- Witness for the amended C4 at the spec's own example `1.234,56`. -/
theorem claim4_virgula_caracterizacao_witness :
    converter_para_numero (some (pys "1.234,56")) = pys "1234.56" := by
  have h := claim4_virgula_caracterizacao.1 (pys "1.234,56") (by decide) (by decide)
  rw [h]
  decide

/-- C5: converter_para_numero maps null and sentinel tokens to the empty
string; with no comma and two or more periods in the cleaned token it
removes every period; with no comma and at most one period the cleaned
token passes through unchanged. -/
theorem claim5_converter_pontos :
    converter_para_numero none = [] ∧
    (∀ v, pertence (pyStrip v) valoresInvalidos = true →
      converter_para_numero (some v) = []) ∧
    (∀ v, contem ',' (limpezaNumerica v) = false →
      2 ≤ (limpezaNumerica v).count '.' →
      converter_para_numero (some v) = removeChar '.' (limpezaNumerica v)) ∧
    (∀ v, contem ',' (limpezaNumerica v) = false →
      (limpezaNumerica v).count '.' ≤ 1 →
      converter_para_numero (some v) = limpezaNumerica v) := by
  refine ⟨rfl, ?_, ?_, ?_⟩
  · intro v h
    rw [converter_some]
    rw [if_pos h]
  · intro v h1 h2
    have hmem : '.' ∈ limpezaNumerica v := by
      by_contra hnm
      rw [List.count_eq_zero.mpr hnm] at h2
      omega
    obtain ⟨hperte, hne⟩ := limpeza_ne_nil_facts ((contem_iff '.' _).mpr hmem)
    rw [converter_some]
    rw [if_neg (by rw [hperte]; simp), if_neg hne, if_neg (by rw [h1]; simp),
      if_pos ((contem_iff '.' _).mpr hmem),
      if_pos (by rw [pySplit_length]; omega)]
    exact pySplit_flatten '.' (limpezaNumerica v)
  · intro v h1 h2
    by_cases hperte : pertence (pyStrip v) valoresInvalidos = true
    · rw [converter_some]
      rw [if_pos hperte]
      exact (invalidos_sem_numerico (pyStrip v) ((pertence_iff _ _).mp hperte)).symm
    · have hpertef : pertence (pyStrip v) valoresInvalidos = false := by
        cases hb : pertence (pyStrip v) valoresInvalidos
        · rfl
        · exact absurd hb hperte
      rw [converter_some]
      rw [if_neg (by rw [hpertef]; simp)]
      by_cases hlim : limpezaNumerica v = []
      · rw [if_pos hlim, hlim]
      · rw [if_neg hlim, if_neg (by rw [h1]; simp)]
        by_cases hdot : contem '.' (limpezaNumerica v) = true
        · rw [if_pos hdot, if_neg (by rw [pySplit_length]; omega)]
        · rw [if_neg hdot]

/-- Witness for C5 at the spec's examples: the lossy multi-period rule and a
sentinel token. -/
theorem claim5_converter_pontos_witness :
    converter_para_numero (some (pys "1.234.56")) = pys "123456" ∧
    converter_para_numero (some (pys "ND")) = [] := by
  constructor
  · have h := claim5_converter_pontos.2.2.1 (pys "1.234.56") (by decide) (by decide)
    rw [h]
    decide
  · exact claim5_converter_pontos.2.1 (pys "ND") (by decide)

theorem length_flatten_const {α β : Type} (L : List α) (f : α → List β) (n : Nat)
    (h : ∀ a ∈ L, (f a).length = n) : (L.map f).flatten.length = L.length * n := by
  induction L with
  | nil => simp
  | cons a L ih =>
    rw [List.map_cons, List.flatten_cons, List.length_append, h a (by simp),
      ih (fun x hx => h x (by simp [hx])), List.length_cons]
    ring

/-- C9: when the classifier finds at least one identifier column and M ≥ 1
period columns, the reshaper emits exactly N × M observation rows for an
N-row data region. -/
theorem claim9_reshape_cardinalidade (df : DF) (servico : PyStr)
    (hid : colunasId df.cols ≠ []) (hdata : colunasData df.cols ≠ []) :
    (transformar_para_formato_longo df servico).rows.length =
      df.rows.length * (colunasData df.cols).length := by
  unfold transformar_para_formato_longo
  rw [if_neg (by simp [hid, hdata])]
  simp only [List.length_map]
  rw [length_flatten_const _ _ df.rows.length (fun a _ => List.length_map _ _)]
  exact Nat.mul_comm _ _

/-- Witness for C9: a two-row frame with two period columns melts into
2 × 2 = 4 observation rows. -/
theorem claim9_reshape_cardinalidade_witness :
    (transformar_para_formato_longo dfExemploLongo (pys "SMP")).rows.length = 2 * 2 := by
  have h := claim9_reshape_cardinalidade dfExemploLongo (pys "SMP")
    (by decide) (by decide)
  rw [h]
  decide

theorem pertence_eq_false_iff {α : Type} [DecidableEq α] (x : α) (l : List α) :
    pertence x l = false ↔ x ∉ l := by
  constructor
  · intro h hm
    rw [(pertence_iff x l).mpr hm] at h
    cases h
  · intro h
    cases hb : pertence x l
    · rfl
    · exact absurd ((pertence_iff x l).mp hb) h

theorem idxDe_get? {α : Type} [DecidableEq α] {x : α} :
    ∀ {l : List α} {j : Nat}, idxDe x l = some j → l.get? j = some x := by
  intro l
  induction l with
  | nil => intro j h; cases h
  | cons y ys ih =>
    intro j h
    by_cases hy : y = x
    · rw [idxDe, if_pos hy] at h
      cases h
      simp [hy]
    · rw [idxDe, if_neg hy] at h
      cases hj : idxDe x ys with
      | none => rw [hj] at h; cases h
      | some j' =>
        rw [hj] at h
        obtain rfl : j' + 1 = j := by simpa using h
        exact ih hj

theorem idxDe_of_mem {α : Type} [DecidableEq α] {x : α} :
    ∀ {l : List α}, x ∈ l → ∃ j, idxDe x l = some j := by
  intro l
  induction l with
  | nil => intro h; simp at h
  | cons y ys ih =>
    intro h
    by_cases hy : y = x
    · exact ⟨0, by rw [idxDe, if_pos hy]⟩
    · have hx : x ∈ ys := by
        rcases List.mem_cons.mp h with rfl | h'
        · exact absurd rfl hy
        · exact h'
      obtain ⟨j, hj⟩ := ih hx
      exact ⟨j + 1, by rw [idxDe, if_neg hy, hj]; rfl⟩

theorem celulaEm_map {cols : List PyStr} {c : PyStr} (hmem : c ∈ cols)
    (g : PyStr → Cell) : celulaEm cols (cols.map g) c = g c := by
  obtain ⟨j, hj⟩ := idxDe_of_mem hmem
  unfold celulaEm
  rw [hj]
  show ((cols.map g).get? j).getD Cell.null = g c
  rw [List.get?_map, idxDe_get? hj]
  rfl

theorem celulaEm_cons_ne {cols : List PyStr} {y c : PyStr} {x0 : Cell}
    {r : List Cell} (h : y ≠ c) :
    celulaEm (y :: cols) (x0 :: r) c = celulaEm cols r c := by
  unfold celulaEm
  rw [idxDe, if_neg h]
  cases hj : idxDe c cols with
  | none => rfl
  | some j => rfl

theorem comIds_length (k : Nat) (l : List (List Cell)) :
    (comIds k l).length = l.length := by
  induction l generalizing k with
  | nil => rfl
  | cons r rs ih => simp [comIds, ih]

theorem comIds_get? (k : Nat) (l : List (List Cell)) (i : Nat) :
    (comIds k l).get? i = (l.get? i).map (fun r => Cell.int (k + i) :: r) := by
  induction l generalizing k i with
  | nil => cases i <;> rfl
  | cons r rs ih =>
    cases i with
    | zero => rfl
    | succ i' =>
      show (comIds (k + 1) rs).get? i' = _
      rw [ih (k + 1) i']
      have : k + 1 + i' = k + (i' + 1) := by omega
      rw [this]
      rfl

theorem aplicaLimparValor_length (cols : List PyStr) (rows : List (List Cell)) :
    (aplicaLimparValor cols rows).length = rows.length := by
  unfold aplicaLimparValor
  cases idxDe (pys "VALOR") cols <;> simp

theorem mem_novas {full : List PyStr} {c : PyStr} (h : c ∈ full) :
    c ∈ colunasDesejadas.filter (fun x => pertence x full) ++
      full.filter (fun x => !(pertence x colunasDesejadas)) := by
  by_cases hd : c ∈ colunasDesejadas
  · exact List.mem_append_left _
      (List.mem_filter.mpr ⟨hd, (pertence_iff _ _).mpr h⟩)
  · refine List.mem_append_right _ (List.mem_filter.mpr ⟨h, ?_⟩)
    rw [(pertence_eq_false_iff _ _).mpr hd]
    rfl

theorem comIds_proj_heads (novas full : List PyStr)
    (hnovas : novas.head? = some (pys "id"))
    (hfullid : idxDe (pys "id") full = some 0) :
    ∀ (k : Nat) (l : List (List Cell)),
      (((comIds k l).map (fun r => novas.map (celulaEm full r))).map
        (fun r => r.head?)) =
      (sequenciaDesde k l.length).map (fun n => some (Cell.int n)) := by
  intro k l
  induction l generalizing k with
  | nil => rfl
  | cons r rs ih =>
    show ((novas.map (celulaEm full (Cell.int k :: r))).head?) ::
        (((comIds (k + 1) rs).map (fun r => novas.map (celulaEm full r))).map
          (fun r => r.head?)) =
      some (Cell.int k) :: (sequenciaDesde (k + 1) rs.length).map
        (fun n => some (Cell.int n))
    rw [ih (k + 1)]
    congr 1
    rw [List.head?_map, hnovas]
    show some (celulaEm full (Cell.int k :: r) (pys "id")) = some (Cell.int k)
    unfold celulaEm
    rw [hfullid]
    rfl

/-- C7: after criar_dataframe_consolidado steps 5–8, the first column is
`id` and holds the dense sequence 1..N positionally, where N is the number
of rows remaining after deduplicating the concatenated observation rows;
row i of the output is row i of the cleaned deduplicated concatenation
(insertion order preserved) read back through the renamed labels; and the
column order is the fixed preferred prefix followed by the remaining
columns in their existing order. -/
theorem claim7_consolidado_invariantes (cols : List PyStr)
    (tabelas : List (List (List Cell)))
    (hid : pys "id" ∉ cols.map renomearFinal)
    (hg : pys "grupo_economico" ∈ cols.map renomearFinal)
    (hs : pys "servico" ∈ cols.map renomearFinal)
    (hm : pys "mes_referencia" ∈ cols.map renomearFinal)
    (hv : pys "valor" ∈ cols.map renomearFinal)
    (ht : pys "tipo_servico" ∈ cols.map renomearFinal) :
    (criar_dataframe_consolidado cols tabelas).cols.head? = some (pys "id") ∧
    (criar_dataframe_consolidado cols tabelas).cols =
      colunasDesejadas ++
        (cols.map renomearFinal).filter (fun c => !(pertence c colunasDesejadas)) ∧
    (criar_dataframe_consolidado cols tabelas).rows.length =
      (drop_duplicates tabelas.flatten).length ∧
    (criar_dataframe_consolidado cols tabelas).rows.map (fun r => r.head?) =
      (sequenciaDesde 1 (criar_dataframe_consolidado cols tabelas).rows.length).map
        (fun n => some (Cell.int n)) ∧
    (∀ i : Nat, ∀ c ∈ cols.map renomearFinal,
      ((criar_dataframe_consolidado cols tabelas).rows.get? i).map
          (fun r => celulaEm (criar_dataframe_consolidado cols tabelas).cols r c) =
        ((aplicaLimparValor cols (drop_duplicates tabelas.flatten)).get? i).map
          (fun r => celulaEm (cols.map renomearFinal) r c)) := by
  have hmem6 : ∀ a ∈ colunasDesejadas, a ∈ pys "id" :: cols.map renomearFinal := by
    intro a ha
    simp only [colunasDesejadas, List.mem_cons, List.not_mem_nil, or_false] at ha
    rcases ha with rfl | rfl | rfl | rfl | rfl | rfl
    · exact List.mem_cons_self _ _
    · exact List.mem_cons_of_mem _ hg
    · exact List.mem_cons_of_mem _ hs
    · exact List.mem_cons_of_mem _ hm
    · exact List.mem_cons_of_mem _ hv
    · exact List.mem_cons_of_mem _ ht
  have hcols : (criar_dataframe_consolidado cols tabelas).cols =
      colunasDesejadas ++
        (cols.map renomearFinal).filter (fun c => !(pertence c colunasDesejadas)) := by
    show colunasDesejadas.filter
        (fun c => pertence c (pys "id" :: cols.map renomearFinal)) ++
      (pys "id" :: cols.map renomearFinal).filter
        (fun c => !(pertence c colunasDesejadas)) = _
    rw [List.filter_eq_self.mpr
      (fun a ha => (pertence_iff _ _).mpr (hmem6 a ha))]
    congr 1
  have hfullid : idxDe (pys "id") (pys "id" :: cols.map renomearFinal) = some 0 := by
    rw [idxDe, if_pos rfl]
  have hnovas : (colunasDesejadas.filter
      (fun c => pertence c (pys "id" :: cols.map renomearFinal)) ++
    (pys "id" :: cols.map renomearFinal).filter
      (fun c => !(pertence c colunasDesejadas))).head? = some (pys "id") := by
    rw [List.filter_eq_self.mpr
      (fun a ha => (pertence_iff _ _).mpr (hmem6 a ha))]
    rfl
  have hhead : (criar_dataframe_consolidado cols tabelas).cols.head? =
      some (pys "id") := by
    rw [hcols]
    rfl
  have hlen : (criar_dataframe_consolidado cols tabelas).rows.length =
      (drop_duplicates tabelas.flatten).length := by
    show ((comIds 1 (aplicaLimparValor cols (drop_duplicates tabelas.flatten))).map
      _).length = _
    rw [List.length_map, comIds_length, aplicaLimparValor_length]
  refine ⟨hhead, hcols, hlen, ?_, ?_⟩
  · show ((comIds 1 (aplicaLimparValor cols (drop_duplicates tabelas.flatten))).map
      _).map _ = _
    rw [comIds_proj_heads _ _ hnovas hfullid 1]
    have hlen2 : (aplicaLimparValor cols (drop_duplicates tabelas.flatten)).length =
        (criar_dataframe_consolidado cols tabelas).rows.length := by
      rw [hlen, aplicaLimparValor_length]
    rw [hlen2]
  · intro i c hc
    have hcfull : c ∈ pys "id" :: cols.map renomearFinal :=
      List.mem_cons_of_mem _ hc
    have hcnovas : c ∈ colunasDesejadas.filter
        (fun x => pertence x (pys "id" :: cols.map renomearFinal)) ++
        (pys "id" :: cols.map renomearFinal).filter
          (fun x => !(pertence x colunasDesejadas)) := mem_novas hcfull
    have hidc : pys "id" ≠ c := fun he => hid (he ▸ hc)
    show (((comIds 1 (aplicaLimparValor cols (drop_duplicates tabelas.flatten))).map
        _).get? i).map _ = _
    rw [List.get?_map, comIds_get?]
    cases hrow : (aplicaLimparValor cols (drop_duplicates tabelas.flatten)).get? i with
    | none => rfl
    | some r =>
      show some (celulaEm (criar_dataframe_consolidado cols tabelas).cols
          (((colunasDesejadas.filter
              (fun x => pertence x (pys "id" :: cols.map renomearFinal)) ++
            (pys "id" :: cols.map renomearFinal).filter
              (fun x => !(pertence x colunasDesejadas)))).map
            (celulaEm (pys "id" :: cols.map renomearFinal)
              (Cell.int (1 + i) :: r))) c) =
        some (celulaEm (cols.map renomearFinal) r c)
      congr 1
      have hRcols : (criar_dataframe_consolidado cols tabelas).cols =
          colunasDesejadas.filter
            (fun x => pertence x (pys "id" :: cols.map renomearFinal)) ++
          (pys "id" :: cols.map renomearFinal).filter
            (fun x => !(pertence x colunasDesejadas)) := rfl
      rw [hRcols, celulaEm_map hcnovas, celulaEm_cons_ne hidc]

/-- C2 counterexample: loading into a database where the target table does
not yet exist and failing during the insert leaves NO table — the claim
says the create-table operation survives the rollback, but DROP, CREATE and
INSERT share the connection's single transaction (no commit intervenes and
PostgreSQL DDL is transactional), so the rollback reverts the creation
too. -/
theorem claim2_contraexemplo :
    (create_table_from_csv none dfExemploCsv true).1 = none ∧
    (create_table_from_csv none dfExemploCsv true).2 = false := by
  exact ⟨rfl, rfl⟩

/-- C2 (amended): a failure during the batch insert rolls back the whole
transaction — the inserted rows AND the drop/create issued earlier in the
same call — so the committed state after a failed load is exactly the state
before the call (previous table, or absence); a successful load commits the
freshly created table with all coerced rows. -/
theorem claim2_rollback_reverte_tudo (committed : Option SQLTable) (dfCsv : DF) :
    create_table_from_csv committed dfCsv true = (committed, false) ∧
    (create_table_from_csv committed dfCsv false).1 =
      some ⟨(preprocess_dataframe dfCsv).cols,
        linhasParaTuplas (preprocess_dataframe dfCsv)⟩ :=
  ⟨rfl, rfl⟩

theorem atualizaIdx_get?_self {α : Type} (j : Nat) (f : α → α) :
    ∀ l : List α, (atualizaIdx j f l).get? j = (l.get? j).map f := by
  intro l
  induction l generalizing j with
  | nil => cases j <;> rfl
  | cons c cs ih =>
    cases j with
    | zero => rfl
    | succ j' => exact ih j'

theorem mem_of_idxDe {α : Type} [DecidableEq α] {x : α} {l : List α} {j : Nat}
    (h : idxDe x l = some j) : x ∈ l := by
  have := idxDe_get? h
  exact List.get?_mem this

theorem preprocess_etapa1_cols (df : DF) : (preprocess_etapa1 df).cols = df.cols := by
  unfold preprocess_etapa1
  by_cases h : pys "referencia_mes" ∈ df.cols
  · rw [if_pos h]
    unfold mapColuna
    cases hj : idxDe (pys "referencia_mes") df.cols <;> rfl
  · rw [if_neg h]

theorem etapa2_rows {df : DF} {j : Nat}
    (hj : idxDe (pys "valor") df.cols = some j) :
    (preprocess_etapa2 df).rows =
      df.rows.map (atualizaIdx j (fun c => if c = Cell.str [] then Cell.null else c)) := by
  unfold preprocess_etapa2
  rw [if_pos (mem_of_idxDe hj)]
  unfold mapColuna
  rw [hj]

theorem clean_sql_ne_empty (c : Cell) :
    celulaParaSQL (if c = Cell.str [] then Cell.null else c) ≠ SQLVal.text [] := by
  by_cases hc : c = Cell.str []
  · rw [if_pos hc]
    intro h
    cases h
  · rw [if_neg hc]
    cases c with
    | null => intro h; cases h
    | str s =>
      intro h
      have hs : s = [] := by cases h; rfl
      exact hc (by rw [hs])
    | int n => intro h; cases h
    | ym y m => intro h; cases h

/-- C10: when the parsed CSV frame has a `valor` column, every empty-string
entry of that column is replaced by null in preprocess_dataframe and
coerced to SQL NULL in the insert tuples, so the successfully loaded table
never contains an empty-string valor cell. -/
theorem claim10_valor_vazio_null (committed : Option SQLTable) (df : DF)
    {j : Nat} (hj : idxDe (pys "valor") df.cols = some j) :
    ∀ tbl, (create_table_from_csv committed df false).1 = some tbl →
      ∀ r ∈ tbl.linhas, (r.get? j).getD SQLVal.null ≠ SQLVal.text [] := by
  intro tbl htbl r hr
  have heq : (create_table_from_csv committed df false).1 =
      some ⟨(preprocess_dataframe df).cols,
        linhasParaTuplas (preprocess_dataframe df)⟩ := rfl
  rw [heq] at htbl
  obtain rfl := (Option.some.inj htbl).symm
  simp only [linhasParaTuplas, List.mem_map] at hr
  obtain ⟨r0, hr0, rfl⟩ := hr
  have hj1 : idxDe (pys "valor") (preprocess_etapa1 df).cols = some j := by
    rw [preprocess_etapa1_cols]
    exact hj
  have hrows : (preprocess_dataframe df).rows =
      (preprocess_etapa1 df).rows.map
        (atualizaIdx j (fun c => if c = Cell.str [] then Cell.null else c)) := by
    show (preprocess_etapa2 (preprocess_etapa1 df)).rows = _
    exact etapa2_rows hj1
  rw [hrows] at hr0
  simp only [List.mem_map] at hr0
  obtain ⟨r1, -, rfl⟩ := hr0
  rw [List.get?_map, atualizaIdx_get?_self]
  cases hc : r1.get? j with
  | none => intro h; cases h
  | some c =>
    show (some (celulaParaSQL (if c = Cell.str [] then Cell.null else c))).getD
      SQLVal.null ≠ SQLVal.text []
    exact clean_sql_ne_empty c

/-- Witness for C10 at the example frame: every loaded row carries NULL,
never empty text, at the valor position (index 2). -/
theorem claim10_valor_vazio_null_witness :
    tabelaExemplo10.linhas.all
      (fun r => decide ((r.get? 2).getD SQLVal.null ≠ SQLVal.text [])) = true := by
  have h := claim10_valor_vazio_null none dfExemploCsv (j := 2) (by decide)
    tabelaExemplo10 rfl
  rw [List.all_eq_true]
  intro r hr
  exact decide_eq_true (h r hr)

/-- Witness for C7: two identical one-row resources consolidate, after
deduplication, to a single row carrying id 1. -/
theorem claim7_consolidado_invariantes_witness :
    (criar_dataframe_consolidado colsExemplo tabelasExemplo).rows.map
        (fun r => r.head?) =
      (sequenciaDesde 1
        (criar_dataframe_consolidado colsExemplo tabelasExemplo).rows.length).map
        (fun n => some (Cell.int n)) ∧
    (criar_dataframe_consolidado colsExemplo tabelasExemplo).rows.length = 1 :=
  ⟨(claim7_consolidado_invariantes colsExemplo tabelasExemplo (by decide) (by decide)
      (by decide) (by decide) (by decide) (by decide)).2.2.2.1, by decide⟩

end IdaEtl
